import Mathlib

/-!
Verification of the GATE 10 offline coincidence sorter
(coincidence_sorter.py, function sort_coincidences).

The sorter reads parallel per-record arrays of detector singles
(GlobalTime, EventID, TotalEnergyDeposit, PostPosition_X/Y/Z,
PostStepUniqueVolumeID, TrackID, RunID), sorts them in lock-step by time,
applies a uniform time offset, and scans the sorted sequence pairing each
record with the first later record inside the coincidence time window that
comes from a different detector volume.

Embedding notes.
* The parallel field arrays are modelled as one list of Single records;
  applying one argsort permutation to every array in lock-step is the same
  as sorting the record list by the time key.
* Times, the window and the offset are modelled as integer nanoseconds
  (the source stores float64 ns; the algorithm applies only addition,
  subtraction, absolute value and order comparison to them, all of which
  are exact here).  Carried-through payload fields
  (TotalEnergyDeposit, PostPosition_X/Y/Z) are modelled as rationals;
  the algorithm never computes with them, it only copies them.
* The sort step models line 58, sort_idx = np.argsort(times), as a stable
  sort by time (Mathlib insertionSort).  Note that np.argsort defaults to
  kind='quicksort' (introsort), which numpy documents as NOT stable; the
  stable model is the behaviour the repository spec requires.  Every
  theorem below except the stability discussion is insensitive to how
  argsort breaks ties, because the scan only looks at times, volume ids
  and field payloads of the sorted records.
-/

/-- One detector single, i.e. one row across the parallel branch arrays
read from the singles tree (coincidence_sorter.py lines 34-53):
GlobalTime, EventID, TotalEnergyDeposit, PostPosition_X/Y/Z,
PostStepUniqueVolumeID, TrackID, RunID. -/
structure Single where
  time : ℤ
  eventID : ℤ
  energy : ℚ
  posX : ℚ
  posY : ℚ
  posZ : ℚ
  volumeID : ℤ
  trackID : ℤ
  runID : ℤ
deriving DecidableEq

/-- One output coincidence record, with exactly the fields stored by the
dictionary built at lines 91-116 of coincidence_sorter.py. -/
structure Coincidence where
  time1 : ℤ
  time2 : ℤ
  eventID1 : ℤ
  eventID2 : ℤ
  energy1 : ℚ
  energy2 : ℚ
  globalPosX1 : ℚ
  globalPosY1 : ℚ
  globalPosZ1 : ℚ
  globalPosX2 : ℚ
  globalPosY2 : ℚ
  globalPosZ2 : ℚ
  volumeID1 : ℤ
  volumeID2 : ℤ
  runID : ℤ
  trackID1 : ℤ
  trackID2 : ℤ
  comptonPhantom1 : ℤ
  comptonPhantom2 : ℤ
  RayleighPhantom1 : ℤ
  RayleighPhantom2 : ℤ
  sourceID1 : ℤ
  sourceID2 : ℤ
deriving DecidableEq

/-- The coincidence dictionary built at lines 91-116: every field is taken
from the ORIGINAL (unshifted) arrays at the sorted indices i (left record,
side 1) and j (right record, side 2); runID is taken from record i; the
scatter/source provenance fields are hard-coded to zero. -/
def mkCoinc (ri rj : Single) : Coincidence where
  time1 := ri.time
  time2 := rj.time
  eventID1 := ri.eventID
  eventID2 := rj.eventID
  energy1 := ri.energy
  energy2 := rj.energy
  globalPosX1 := ri.posX
  globalPosY1 := ri.posY
  globalPosZ1 := ri.posZ
  globalPosX2 := rj.posX
  globalPosY2 := rj.posY
  globalPosZ2 := rj.posZ
  volumeID1 := ri.volumeID
  volumeID2 := rj.volumeID
  runID := ri.runID
  trackID1 := ri.trackID
  trackID2 := rj.trackID
  comptonPhantom1 := 0
  comptonPhantom2 := 0
  RayleighPhantom1 := 0
  RayleighPhantom2 := 0
  sourceID1 := 0
  sourceID2 := 0

/-- Order on singles used by the sorting step: ascending time key. -/
def timeLE (a b : Single) : Prop := a.time ≤ b.time

instance : DecidableRel timeLE := fun a b => inferInstanceAs (Decidable (a.time ≤ b.time))

instance : IsTotal Single timeLE := ⟨fun a b => le_total a.time b.time⟩

instance : IsTrans Single timeLE := ⟨fun _ _ _ hab hbc => le_trans hab hbc⟩

/-- Lines 57-67: sort_idx = np.argsort(times), then every parallel array is
gathered through the same sort_idx in lock-step; on the record-list model
that is sorting the list by the time key.  Modelled as a stable sort (see
the header note on np.argsort's default kind). -/
def sortSingles (singles : List Single) : List Single :=
  List.insertionSort timeLE singles

/-- Lines 82-121, the inner for-loop over j for a fixed i.  t1 is the
shifted time of record r1 (= times_shifted[i], line 79); each candidate r2
contributes t2 = its time + offset (times_shifted[j], line 83).
If abs (t2 - t1) is inside the window and the volume ids differ the
coincidence is stored and the loop breaks (lines 87-118); if it is inside
the window on the same volume the loop continues; once the difference
exceeds the window the loop breaks with no result (lines 119-121). -/
def findPartner (W t1 : ℤ) (r1 : Single) (off : ℤ) : List Single → Option Coincidence
  | [] => none
  | r2 :: rest =>
    let t2 := r2.time + off
    let time_diff := |t2 - t1|
    if time_diff ≤ W then
      if r1.volumeID ≠ r2.volumeID then some (mkCoinc r1 r2)
      else findPartner W t1 r1 off rest
    else none

/-- Lines 74-123, the outer while-loop: i runs over the sorted sequence in
order, each iteration appends at most the one coincidence found by the
inner loop, and i advances by 1 regardless.  (The while-loop bound
i < n_singles - 1 only omits the last iteration, which scans an empty
suffix and appends nothing, so the output is unchanged.) -/
def scanSorted (W off : ℤ) : List Single → List Coincidence
  | [] => []
  | r :: rest => (findPartner W (r.time + off) r off rest).toList ++ scanSorted W off rest

/-- sort_coincidences (lines 13-144) restricted to its pure core: sort all
parallel arrays by time in lock-step (lines 57-67), form
times_shifted = times + offset_ns (line 70), and run the pairing scan
(lines 74-123).  File I/O and progress printing are outside the model. -/
def sort_coincidences (singles : List Single) (time_window_ns offset_ns : ℤ) :
    List Coincidence :=
  scanSorted time_window_ns offset_ns (sortSingles singles)

/-- Line 144: the function reports the number of coincidences found. -/
def sort_coincidences_count (singles : List Single) (time_window_ns offset_ns : ℤ) : ℕ :=
  (sort_coincidences singles time_window_ns offset_ns).length

/-! ### Specification-side definitions -/

/-- Modelled from the spec: the qualifying test of the pairing rule, on
unshifted times, for claims C7 and C8 — the right member of a pair must be
inside the window and on a different detector. -/
def qualifies (W : ℤ) (r1 r2 : Single) : Bool :=
  decide (|r2.time - r1.time| ≤ W) && decide (r1.volumeID ≠ r2.volumeID)

/-- Modelled from the spec: for each position i of the sorted sequence emit
at most one coincidence, whose right member is the FIRST later record that
qualifies (smallest j with time difference inside the window and a
different detector id); first qualifying match wins. -/
def firstMatchSpec (W : ℤ) : List Single → List Coincidence
  | [] => []
  | r :: rest =>
      ((rest.find? (qualifies W r)).map (mkCoinc r)).toList ++ firstMatchSpec W rest

/-- Modelled from the spec: the naive inner scan of claim C8, which visits
every j from i+1 to n-1 (no early exit once the time difference exceeds
the window) but still stops at the first qualifying match. -/
def naiveFindPartner (W t1 : ℤ) (r1 : Single) (off : ℤ) : List Single → Option Coincidence
  | [] => none
  | r2 :: rest =>
    let t2 := r2.time + off
    let time_diff := |t2 - t1|
    if time_diff ≤ W ∧ r1.volumeID ≠ r2.volumeID then some (mkCoinc r1 r2)
    else naiveFindPartner W t1 r1 off rest

/-- Modelled from the spec: the outer loop of the naive variant of C8. -/
def naiveScan (W off : ℤ) : List Single → List Coincidence
  | [] => []
  | r :: rest => (naiveFindPartner W (r.time + off) r off rest).toList ++ naiveScan W off rest

/-- Modelled from the spec: sort_coincidences with the naive inner scan. -/
def naive_sort_coincidences (singles : List Single) (W off : ℤ) : List Coincidence :=
  naiveScan W off (sortSingles singles)

/-! ### Helper lemmas -/

theorem sortSingles_sorted (singles : List Single) : (sortSingles singles).Sorted timeLE :=
  List.sorted_insertionSort timeLE singles

theorem sortSingles_perm (singles : List Single) : (sortSingles singles).Perm singles :=
  List.perm_insertionSort timeLE singles

theorem abs_shift (x y o : ℤ) : |x + o - (y + o)| = |x - y| := by
  rw [add_sub_add_right_eq_sub]

theorem qualifies_iff (W : ℤ) (r b : Single) :
    qualifies W r b = true ↔ (|b.time - r.time| ≤ W ∧ r.volumeID ≠ b.volumeID) := by
  simp [qualifies]

/-- The uniform shift cancels inside the inner loop: both occurrences of
the offset are added to times whose difference is all the loop inspects. -/
theorem findPartner_offset (W off : ℤ) (r : Single) :
    ∀ l, findPartner W (r.time + off) r off l = findPartner W (r.time + 0) r 0 l
  | [] => rfl
  | b :: bs => by
      simp only [findPartner, abs_shift]
      rw [findPartner_offset W off r bs]

theorem scanSorted_offset (W off : ℤ) :
    ∀ l, scanSorted W off l = scanSorted W 0 l
  | [] => rfl
  | r :: rest => by
      simp only [scanSorted]
      rw [findPartner_offset W off r rest, scanSorted_offset W off rest]

/-- Anything the inner loop returns pairs the scanned record with a member
of the scanned suffix that is inside the window and on another detector. -/
theorem findPartner_eq_some {W off : ℤ} {r : Single} {c : Coincidence} :
    ∀ {l : List Single}, findPartner W (r.time + off) r off l = some c →
      ∃ b, b ∈ l ∧ c = mkCoinc r b ∧ |b.time - r.time| ≤ W ∧ r.volumeID ≠ b.volumeID := by
  intro l
  induction l with
  | nil => intro h; exact absurd h (by simp [findPartner])
  | cons b bs ih =>
      intro h
      simp only [findPartner, abs_shift] at h
      by_cases hd : |b.time - r.time| ≤ W
      · rw [if_pos hd] at h
        by_cases hv : r.volumeID ≠ b.volumeID
        · rw [if_pos hv] at h
          exact ⟨b, List.mem_cons_self b bs, (Option.some.inj h).symm, hd, hv⟩
        · rw [if_neg hv] at h
          obtain ⟨b2, hmem, hrest⟩ := ih h
          exact ⟨b2, List.mem_cons_of_mem b hmem, hrest⟩
      · rw [if_neg hd] at h
        exact absurd h (by simp)

/-- Any member of the scan output is built by mkCoinc from two records of
the scanned list, inside the window and on different detectors. -/
theorem mem_scanSorted {W off : ℤ} {c : Coincidence} :
    ∀ {l : List Single}, c ∈ scanSorted W off l →
      ∃ r b, r ∈ l ∧ b ∈ l ∧ c = mkCoinc r b ∧
        |b.time - r.time| ≤ W ∧ r.volumeID ≠ b.volumeID := by
  intro l
  induction l with
  | nil => intro h; exact absurd h (by simp [scanSorted])
  | cons r rest ih =>
      intro h
      simp only [scanSorted, List.mem_append] at h
      rcases h with h | h
      · have hf : findPartner W (r.time + off) r off rest = some c := by
          cases hfp : findPartner W (r.time + off) r off rest with
          | none => rw [hfp] at h; exact absurd h (by simp)
          | some c2 =>
              rw [hfp] at h
              simp only [Option.toList_some, List.mem_singleton] at h
              rw [h]
        obtain ⟨b, hb, hrest⟩ := findPartner_eq_some hf
        exact ⟨r, b, List.mem_cons_self r rest, List.mem_cons_of_mem r hb, hrest⟩
      · obtain ⟨r2, b2, hr2, hb2, hrest⟩ := ih h
        exact ⟨r2, b2, List.mem_cons_of_mem r hr2, List.mem_cons_of_mem r hb2, hrest⟩

/-- Output found while scanning a suffix is still found when the scan
starts earlier. -/
theorem mem_scanSorted_append {W off : ℤ} {c : Coincidence} {m : List Single}
    (h : c ∈ scanSorted W off m) : ∀ l, c ∈ scanSorted W off (l ++ m)
  | [] => h
  | r :: rest => by
      simp only [List.cons_append, scanSorted, List.mem_append]
      exact Or.inr (mem_scanSorted_append h rest)

/-- On a suffix whose times all lie at or after the scanned record (the
situation after sorting), the early-exit inner loop returns exactly the
first qualifying record: once the head is outside the window, sortedness
pushes every later record outside it too. -/
theorem findPartner_eq_find? {W off : ℤ} {r : Single} :
    ∀ {l : List Single}, (∀ b ∈ l, r.time ≤ b.time) → l.Sorted timeLE →
      findPartner W (r.time + off) r off l = (l.find? (qualifies W r)).map (mkCoinc r) := by
  intro l
  induction l with
  | nil => intro _ _; rfl
  | cons b bs ih =>
      intro hall hs
      have hrb : r.time ≤ b.time := hall b (List.mem_cons_self b bs)
      rw [List.sorted_cons] at hs
      simp only [findPartner, abs_shift]
      by_cases hd : |b.time - r.time| ≤ W
      · by_cases hv : r.volumeID ≠ b.volumeID
        · rw [if_pos hd, if_pos hv,
            List.find?_cons_of_pos bs ((qualifies_iff W r b).mpr ⟨hd, hv⟩)]
          rfl
        · rw [if_pos hd, if_neg hv,
            List.find?_cons_of_neg bs (fun hq => hv ((qualifies_iff W r b).mp hq).2)]
          exact ih (fun x hx => hall x (List.mem_cons_of_mem b hx)) hs.2
      · have hnone : (b :: bs).find? (qualifies W r) = none := by
          rw [List.find?_eq_none]
          intro x hx hq
          rcases List.mem_cons.mp hx with hxb | hx2
          · exact hd (hxb ▸ ((qualifies_iff W r x).mp hq).1)
          · apply hd
            have hbx : b.time ≤ x.time := hs.1 x hx2
            have hq1 := ((qualifies_iff W r x).mp hq).1
            have h1 : |b.time - r.time| = b.time - r.time :=
              abs_of_nonneg (sub_nonneg.mpr hrb)
            have h2 : |x.time - r.time| = x.time - r.time :=
              abs_of_nonneg (sub_nonneg.mpr (le_trans hrb hbx))
            rw [h2] at hq1
            rw [h1]
            linarith
        rw [if_neg hd, hnone]
        rfl

/-- On a sorted sequence the scan of the code computes the first-match
specification at every position. -/
theorem scanSorted_eq_firstMatchSpec {W off : ℤ} :
    ∀ {l : List Single}, l.Sorted timeLE → scanSorted W off l = firstMatchSpec W l := by
  intro l
  induction l with
  | nil => intro _; rfl
  | cons r rest ih =>
      intro hs
      rw [List.sorted_cons] at hs
      simp only [scanSorted, firstMatchSpec]
      rw [findPartner_eq_find? hs.1 hs.2, ih hs.2]

/-- The naive inner scan is literally a first-match search, with no
sortedness needed, because it never exits early. -/
theorem naiveFindPartner_eq_find? (W off : ℤ) (r : Single) :
    ∀ l : List Single,
      naiveFindPartner W (r.time + off) r off l = (l.find? (qualifies W r)).map (mkCoinc r)
  | [] => rfl
  | b :: bs => by
      simp only [naiveFindPartner, abs_shift]
      by_cases h : |b.time - r.time| ≤ W ∧ r.volumeID ≠ b.volumeID
      · rw [if_pos h, List.find?_cons_of_pos bs ((qualifies_iff W r b).mpr h)]
        rfl
      · rw [if_neg h, List.find?_cons_of_neg bs (fun hq => h ((qualifies_iff W r b).mp hq)),
          naiveFindPartner_eq_find? W off r bs]

theorem naiveScan_eq_firstMatchSpec (W off : ℤ) :
    ∀ l, naiveScan W off l = firstMatchSpec W l
  | [] => rfl
  | r :: rest => by
      simp only [naiveScan, firstMatchSpec]
      rw [naiveFindPartner_eq_find? W off r rest, naiveScan_eq_firstMatchSpec W off rest]

/-! ### Concrete records used in closed statements -/

def sA : Single := ⟨0, 1, 511, 10, 0, 0, 1, 1, 0⟩

def sB : Single := ⟨50, 2, 511, -10, 0, 0, 2, 2, 0⟩

def sC : Single := ⟨0, 3, 511, 5, 0, 0, 1, 3, 0⟩

def sD : Single := ⟨120, 4, 511, -5, 0, 0, 2, 4, 0⟩

def sE : Single := ⟨121, 5, 511, -5, 0, 0, 2, 5, 0⟩

def r61 : Single := ⟨0, 6, 511, 1, 0, 0, 1, 6, 0⟩

def r62 : Single := ⟨10, 7, 511, 2, 0, 0, 1, 7, 0⟩

def r63 : Single := ⟨15, 8, 511, 3, 0, 0, 2, 8, 0⟩

/-! ### Claims -/

/-- C1 (code bug at a concrete input): the code forms
times_shifted = times + offset_ns for EVERY record and compares shifted
times pairwise, so the offset cancels.  At the input below, two singles
50 ns apart on different detectors, the run with offset 500 still emits
their pair, although pairing the unshifted timeline against a copy of
itself translated by 500 ns leaves them 550 ns apart, outside the 120 ns
window, so a faithful delayed-window run would emit nothing. -/
theorem offset_applied_to_both_copies :
    sort_coincidences [sA, sB] 120 500 = [mkCoinc sA sB] ∧
      ¬ |sB.time + 500 - sA.time| ≤ 120 := by decide

/-- C2: the emitted coincidence list does not depend on the offset
parameter at all — the run with any offset equals the run with offset 0 —
and every emitted pair is inside the window on the original unshifted
times. -/
theorem offset_invariance (singles : List Single) (W off : ℤ) :
    sort_coincidences singles W off = sort_coincidences singles W 0 ∧
      ∀ c ∈ sort_coincidences singles W off, |c.time2 - c.time1| ≤ W := by
  constructor
  · exact scanSorted_offset W off (sortSingles singles)
  · intro c hc
    obtain ⟨r, b, _, _, hcb, hw, _⟩ := mem_scanSorted hc
    rw [hcb]
    simpa [mkCoinc] using hw

/-- Witness for C2 at a concrete input and a concrete output record. -/
theorem offset_invariance_witness :
    sort_coincidences [sA, sB] 120 500 = sort_coincidences [sA, sB] 120 0 ∧
      |(mkCoinc sA sB).time2 - (mkCoinc sA sB).time1| ≤ 120 :=
  ⟨(offset_invariance [sA, sB] 120 500).1,
   (offset_invariance [sA, sB] 120 500).2 (mkCoinc sA sB) (by decide)⟩

/-- C4: the window boundary is inclusive.  Two records adjacent in the
sorted sequence, on different detectors, exactly one window width apart
are paired; and no pair strictly wider than the window is ever emitted. -/
theorem window_boundary_inclusive (singles : List Single) (W off : ℤ) :
    (∀ l1 a b l2, sortSingles singles = l1 ++ a :: b :: l2 →
        a.volumeID ≠ b.volumeID → |b.time - a.time| = W →
        mkCoinc a b ∈ sort_coincidences singles W off) ∧
    (∀ a b, W < |b.time - a.time| →
        mkCoinc a b ∉ sort_coincidences singles W off) := by
  constructor
  · intro l1 a b l2 hsplit hvol hW
    have hfp : findPartner W (a.time + off) a off (b :: l2) = some (mkCoinc a b) := by
      simp only [findPartner, abs_shift]
      rw [if_pos (le_of_eq hW), if_pos hvol]
    have hmem : mkCoinc a b ∈ scanSorted W off (a :: b :: l2) := by
      simp only [scanSorted, hfp, Option.toList_some, List.mem_append, List.mem_singleton]
      exact Or.inl trivial
    show mkCoinc a b ∈ scanSorted W off (sortSingles singles)
    rw [hsplit]
    exact mem_scanSorted_append hmem l1
  · intro a b hgt hmem
    obtain ⟨r, b2, _, _, heq, hw, _⟩ := mem_scanSorted hmem
    simp only [mkCoinc, Coincidence.mk.injEq] at heq
    obtain ⟨ht1, ht2, _⟩ := heq
    rw [ht1, ht2] at hgt
    exact absurd hw (not_le.mpr hgt)

/-- Witness for C4: a pair exactly 120 ns apart is emitted, a pair 121 ns
apart is not. -/
theorem window_boundary_inclusive_witness :
    mkCoinc sC sD ∈ sort_coincidences [sC, sD] 120 0 ∧
      mkCoinc sC sE ∉ sort_coincidences [sC, sE] 120 0 :=
  ⟨(window_boundary_inclusive [sC, sD] 120 0).1 [] sC sD []
      (by decide) (by decide) (by decide),
   (window_boundary_inclusive [sC, sE] 120 0).2 sC sE (by decide)⟩

/-- C5: no emitted coincidence pairs two singles of the same detector
volume, for every input, window and offset. -/
theorem no_same_detector_pair (singles : List Single) (W off : ℤ) :
    ∀ c ∈ sort_coincidences singles W off, c.volumeID1 ≠ c.volumeID2 := by
  intro c hc
  obtain ⟨r, b, _, _, hcb, _, hv⟩ := mem_scanSorted hc
  rw [hcb]
  simpa [mkCoinc] using hv

/-- Witness for C5 at a concrete input and output record. -/
theorem no_same_detector_pair_witness :
    (mkCoinc sA sB).volumeID1 ≠ (mkCoinc sA sB).volumeID2 :=
  no_same_detector_pair [sA, sB] 120 0 (mkCoinc sA sB) (by decide)

/-- C6: on the spec scenario detector 1 at t=0, detector 1 at t=10,
detector 2 at t=15 with window 120 and offset 0, the scan does not stop
at the same-detector record: the first single pairs with the third, and
never with the second. -/
theorem same_detector_skip_example :
    sort_coincidences [r61, r62, r63] 120 0 = [mkCoinc r61 r63, mkCoinc r62 r63] ∧
      mkCoinc r61 r62 ∉ sort_coincidences [r61, r62, r63] 120 0 := by decide

/-- C7: first qualifying match wins — the code equals the specification
that emits, for each position of the sorted sequence, at most one
coincidence whose right member is the first later record inside the
window on a different detector, and then stops scanning for that
position. -/
theorem first_match_characterization (singles : List Single) (W off : ℤ) :
    sort_coincidences singles W off = firstMatchSpec W (sortSingles singles) :=
  scanSorted_eq_firstMatchSpec (sortSingles_sorted singles)

/-- C8: the early exit once the time difference exceeds the window loses
nothing — the code equals the naive variant that keeps scanning every
later record. -/
theorem early_exit_equiv_naive (singles : List Single) (W off : ℤ) :
    sort_coincidences singles W off = naive_sort_coincidences singles W off := by
  show scanSorted W off (sortSingles singles) = naiveScan W off (sortSingles singles)
  rw [scanSorted_eq_firstMatchSpec (sortSingles_sorted singles),
    naiveScan_eq_firstMatchSpec W off (sortSingles singles)]

/-- C9: zero or one input record yields zero coincidences and a zero
reported count, with no failure (the embedding is a total function). -/
theorem degenerate_input_empty (singles : List Single) (W off : ℤ)
    (h : singles.length ≤ 1) :
    sort_coincidences singles W off = [] ∧ sort_coincidences_count singles W off = 0 := by
  cases singles with
  | nil => exact ⟨rfl, rfl⟩
  | cons a t =>
      cases t with
      | nil => exact ⟨rfl, rfl⟩
      | cons b t2 =>
          simp only [List.length_cons] at h
          omega

/-- Witness for C9 on a one-record input. -/
theorem degenerate_input_empty_witness :
    sort_coincidences [sA] 120 0 = [] ∧ sort_coincidences_count [sA] 120 0 = 0 :=
  degenerate_input_empty [sA] 120 0 (by decide)

/-- C10: every emitted coincidence carries the placeholder provenance
fields as the fixed value zero, and is built from two input records with
its runID taken from the record supplying the side-1 fields. -/
theorem placeholder_fields_and_runID (singles : List Single) (W off : ℤ) :
    ∀ c ∈ sort_coincidences singles W off,
      c.comptonPhantom1 = 0 ∧ c.comptonPhantom2 = 0 ∧
      c.RayleighPhantom1 = 0 ∧ c.RayleighPhantom2 = 0 ∧
      c.sourceID1 = 0 ∧ c.sourceID2 = 0 ∧
      ∃ r1 r2, r1 ∈ singles ∧ r2 ∈ singles ∧ c = mkCoinc r1 r2 ∧
        c.runID = r1.runID ∧ c.time1 = r1.time ∧ c.eventID1 = r1.eventID := by
  intro c hc
  obtain ⟨r, b, hr, hb, hcb, _, _⟩ := mem_scanSorted hc
  have hr2 : r ∈ singles := (sortSingles_perm singles).mem_iff.mp hr
  have hb2 : b ∈ singles := (sortSingles_perm singles).mem_iff.mp hb
  subst hcb
  exact ⟨rfl, rfl, rfl, rfl, rfl, rfl, r, b, hr2, hb2, rfl, rfl, rfl, rfl⟩

/-- Witness for C10 at a concrete input and output record. -/
theorem placeholder_fields_and_runID_witness :
    (mkCoinc sA sB).comptonPhantom1 = 0 ∧ (mkCoinc sA sB).comptonPhantom2 = 0 ∧
      (mkCoinc sA sB).RayleighPhantom1 = 0 ∧ (mkCoinc sA sB).RayleighPhantom2 = 0 ∧
      (mkCoinc sA sB).sourceID1 = 0 ∧ (mkCoinc sA sB).sourceID2 = 0 ∧
      ∃ r1 r2, r1 ∈ [sA, sB] ∧ r2 ∈ [sA, sB] ∧ mkCoinc sA sB = mkCoinc r1 r2 ∧
        (mkCoinc sA sB).runID = r1.runID ∧ (mkCoinc sA sB).time1 = r1.time ∧
        (mkCoinc sA sB).eventID1 = r1.eventID :=
  placeholder_fields_and_runID [sA, sB] 120 0 (mkCoinc sA sB) (by decide)
